import Mathlib

/-!
Verification development for the smsremind repository.

Strings from the Go source are modelled as `List Char`; instants are epoch
seconds (`Int`); timezone locations are fixed-offset zones (name + seconds
east of UTC), which matches every behaviour the claims exercise.  Fallible
Go functions become `Option`/`Except`; the filesystem is an explicit value
threaded through the lock and store operations.
-/

namespace Smsremind

/-! ## Basic character and list helpers (Go `strings`/`strconv` fragments) -/

def isDigitCh (c : Char) : Bool := '0' ≤ c && c ≤ '9'

def digitVal (c : Char) : Nat := c.toNat - '0'.toNat

/-- Decimal digits to a number; `none` on empty input or a non-digit
(Go `strconv.Atoi` digit loop). -/
def digitsToNat : List Char → Option Nat
  | [] => none
  | [c] => if isDigitCh c then some (digitVal c) else none
  | c :: rest =>
    if isDigitCh c then
      (digitsToNat rest).map (fun n => digitVal c * 10 ^ rest.length + n)
    else none

/-- Go `strconv.Atoi`: optional single sign followed by at least one digit. -/
def atoi (l : List Char) : Option Int :=
  match l with
  | '+' :: rest => (digitsToNat rest).map Int.ofNat
  | '-' :: rest => (digitsToNat rest).map (fun n => -(n : Int))
  | _ => (digitsToNat l).map Int.ofNat

def fieldsAux : List Char → List Char → List (List Char)
  | [], acc => if acc = [] then [] else [acc.reverse]
  | c :: rest, acc =>
    if c.isWhitespace then
      if acc = [] then fieldsAux rest [] else acc.reverse :: fieldsAux rest []
    else fieldsAux rest (c :: acc)

/-- Go `strings.Fields`: split around runs of whitespace, dropping empties. -/
def fields (l : List Char) : List (List Char) := fieldsAux l []

/-- Go `strings.TrimSpace`. -/
def trimSpace (l : List Char) : List Char :=
  ((l.dropWhile Char.isWhitespace).reverse.dropWhile Char.isWhitespace).reverse

def toUpperList (l : List Char) : List Char := l.map Char.toUpper

def toLowerList (l : List Char) : List Char := l.map Char.toLower

/-- Prefix test (Go substring comparison inside `strings.Index`). -/
def listStartsWith (pat l : List Char) : Bool :=
  match pat with
  | [] => true
  | a :: as =>
    match l with
    | [] => false
    | b :: bs => if a = b then listStartsWith as bs else false

/-- Split at the first occurrence of a (nonempty) pattern, removing it:
Go `strings.Index` followed by the two slicings the caller performs. -/
def breakOnSub (pat : List Char) : List Char → Option (List Char × List Char)
  | [] => none
  | c :: rest =>
    if listStartsWith pat (c :: rest) then some ([], (c :: rest).drop pat.length)
    else
      match breakOnSub pat rest with
      | some (pre, post) => some (c :: pre, post)
      | none => none

/-- Split at the first character drawn from `stops`, keeping it in the second
component: Go `strings.IndexAny` with slices `s[:j]` and `s[j:]`. -/
def breakOnFirstAny (stops : List Char) : List Char → List Char × List Char
  | [] => ([], [])
  | c :: rest =>
    if c ∈ stops then ([], c :: rest)
    else
      let p := breakOnFirstAny stops rest
      (c :: p.1, p.2)

/-- Split at the last occurrence of `ch`, removing it: Go `strings.LastIndex`
with slices `s[:at]` and `s[at+1:]`. -/
def breakOnLastChar (ch : Char) : List Char → Option (List Char × List Char)
  | [] => none
  | c :: rest =>
    match breakOnLastChar ch rest with
    | some (u, v) => some (c :: u, v)
    | none => if c = ch then some ([], rest) else none

/-- Split at the first occurrence of `ch`, removing it: Go `strings.Index`
with slices `s[:c]` and `s[c+1:]`. -/
def breakOnFirstChar (ch : Char) : List Char → Option (List Char × List Char)
  | [] => none
  | c :: rest =>
    if c = ch then some ([], rest)
    else (breakOnFirstChar ch rest).map (fun p => (c :: p.1, p.2))

def isHexCh (c : Char) : Bool :=
  isDigitCh c || ('a' ≤ c && c ≤ 'f') || ('A' ≤ c && c ≤ 'F')

def hexVal (c : Char) : Nat :=
  if isDigitCh c then digitVal c
  else if 'a' ≤ c && c ≤ 'f' then c.toNat - 'a'.toNat + 10
  else c.toNat - 'A'.toNat + 10

/-- Go `net/url.QueryUnescape`: `%XX` decodes by hex value (`none` on a
malformed escape) and `+` decodes to a space. -/
def queryUnescape : List Char → Option (List Char)
  | [] => some []
  | c :: rest =>
    if c = '%' then
      match rest with
      | a :: b :: rest' =>
        if isHexCh a && isHexCh b then
          (queryUnescape rest').map (fun l => Char.ofNat (hexVal a * 16 + hexVal b) :: l)
        else none
      | _ => none
    else if c = '+' then (queryUnescape rest).map (fun l => ' ' :: l)
    else (queryUnescape rest).map (fun l => c :: l)

def natToChars (n : Nat) : List Char := Nat.toDigits 10 n

def intToChars (i : Int) : List Char :=
  if i < 0 then '-' :: natToChars (-i).toNat else natToChars i.toNat

def assocLookup {α : Type} [DecidableEq α] {β : Type} (k : α) :
    List (α × β) → Option β
  | [] => none
  | (k', v) :: rest => if k' = k then some v else assocLookup k rest

def assocSet {α : Type} [DecidableEq α] {β : Type} (k : α) (v : β) :
    List (α × β) → List (α × β)
  | [] => [(k, v)]
  | (k', v') :: rest =>
    if k' = k then (k, v) :: rest else (k', v') :: assocSet k v rest

/-! ## Civil time: the value semantics of Go `time.Time`

A `Location` is a fixed-offset zone (seconds east of UTC); a `GoTime` is an
absolute instant (epoch seconds) displayed in a location, which is exactly
the information `time.Time` carries for the code paths under claim. -/

structure Location where
  name : List Char
  offset : Int
  deriving DecidableEq, Repr

def utcLoc : Location := { name := "UTC".data, offset := 0 }

structure GoTime where
  epoch : Int
  loc : Location
  deriving DecidableEq, Repr

/-- Go `Time.Add` for a duration in seconds: shifts the instant, keeps the
location. -/
def GoTime.add (t : GoTime) (secs : Int) : GoTime :=
  { epoch := t.epoch + secs, loc := t.loc }

/-- Go `Time.Sub` in seconds. -/
def GoTime.subSec (a b : GoTime) : Int := a.epoch - b.epoch

structure Civil where
  year : Int
  month : Nat
  day : Nat
  hour : Nat
  minute : Nat
  second : Nat
  deriving DecidableEq, Repr

def isLeapYear (y : Int) : Bool :=
  Int.emod y 4 = 0 && (Int.emod y 100 ≠ 0 || Int.emod y 400 = 0)

def daysInMonth (y : Int) (m : Nat) : Nat :=
  if m = 2 then (if isLeapYear y then 29 else 28)
  else if m = 4 || m = 6 || m = 9 || m = 11 then 30
  else 31

/-- Days since 1970-01-01 of a civil date (standard civil-calendar
conversion, the value semantics of Go's `time` date handling). -/
def daysFromCivil (y : Int) (m d : Nat) : Int :=
  let y' : Int := if m ≤ 2 then y - 1 else y
  let era : Int := Int.fdiv y' 400
  let yoe : Int := y' - era * 400
  let mp : Nat := if m > 2 then m - 3 else m + 9
  let doy : Int := Int.ofNat ((153 * mp + 2) / 5 + d - 1)
  let doe : Int := yoe * 365 + Int.fdiv yoe 4 - Int.fdiv yoe 100 + doy
  era * 146097 + doe - 719468

/-- Epoch seconds of a civil date-time read as UTC. -/
def civilToEpochUTC (c : Civil) : Int :=
  daysFromCivil c.year c.month c.day * 86400
    + Int.ofNat (c.hour * 3600 + c.minute * 60 + c.second)

/-- Inverse of `daysFromCivil` (standard algorithm); used for formatting. -/
def civilFromDays (z : Int) : Int × Nat × Nat :=
  let z' : Int := z + 719468
  let era : Int := Int.fdiv z' 146097
  let doe : Nat := (z' - era * 146097).toNat
  let yoe : Nat := (doe - doe / 1460 + doe / 36524 - doe / 146096) / 365
  let doy : Nat := doe - (365 * yoe + yoe / 4 - yoe / 100)
  let mp : Nat := (5 * doy + 2) / 153
  let d : Nat := doy - (153 * mp + 2) / 5 + 1
  let m : Nat := if mp < 10 then mp + 3 else mp - 9
  let y : Int := Int.ofNat yoe + era * 400 + (if m ≤ 2 then 1 else 0)
  (y, m, d)

/-- Civil fields of an instant displayed at a fixed offset. -/
def epochToCivil (secs : Int) : Civil :=
  let days : Int := Int.fdiv secs 86400
  let sod : Nat := (secs - days * 86400).toNat
  let ymd := civilFromDays days
  { year := ymd.1, month := ymd.2.1, day := ymd.2.2,
    hour := sod / 3600, minute := sod % 3600 / 60, second := sod % 60 }

/-- Instant whose civil reading in `loc` is `c` (Go `time.Date` /
`ParseInLocation` semantics for a fixed-offset location). -/
def timeInLoc (c : Civil) (loc : Location) : GoTime :=
  { epoch := civilToEpochUTC c - loc.offset, loc := loc }

def pad2 (n : Nat) : List Char :=
  if n < 10 then '0' :: natToChars n else natToChars n

def pad4 (n : Nat) : List Char :=
  if n < 10 then '0' :: '0' :: '0' :: natToChars n
  else if n < 100 then '0' :: '0' :: natToChars n
  else if n < 1000 then '0' :: natToChars n
  else natToChars n

/-- Go `Time.Format(time.RFC3339)` (seconds precision): civil fields in the
time's own location, offset suffix `Z` when the offset is zero, else
`±HH:MM`. -/
def formatRFC3339 (t : GoTime) : List Char :=
  let c := epochToCivil (t.epoch + t.loc.offset)
  let date := pad4 c.year.toNat ++ '-' :: pad2 c.month ++ '-' :: pad2 c.day
  let tod := pad2 c.hour ++ ':' :: pad2 c.minute ++ ':' :: pad2 c.second
  let zone :=
    if t.loc.offset = 0 then ['Z']
    else
      let mag := t.loc.offset.natAbs
      (if t.loc.offset < 0 then '-' else '+') ::
        (pad2 (mag / 3600) ++ ':' :: pad2 (mag % 3600 / 60))
  date ++ 'T' :: tod ++ zone

def twoDigits (a b : Char) : Option Nat :=
  if isDigitCh a && isDigitCh b then some (digitVal a * 10 + digitVal b) else none

def fourDigits (a b c d : Char) : Option Nat :=
  if isDigitCh a && isDigitCh b && isDigitCh c && isDigitCh d then
    some (digitVal a * 1000 + digitVal b * 100 + digitVal c * 10 + digitVal d)
  else none

/-- Optional fractional seconds `.ddd`/`,ddd` (Go `time.Parse` accepts both
after the seconds field; at least one digit is required). -/
def dropFraction : List Char → Option (List Char)
  | '.' :: rest =>
    let ds := rest.takeWhile isDigitCh
    if ds = [] then none else some (rest.drop ds.length)
  | ',' :: rest =>
    let ds := rest.takeWhile isDigitCh
    if ds = [] then none else some (rest.drop ds.length)
  | l => some l

/-- Zone suffix of RFC3339: `Z` or `±HH:MM`; returns seconds east of UTC. -/
def parseZoneSuffix : List Char → Option Int
  | ['Z'] => some 0
  | [s, h1, h2, ':', m1, m2] =>
    if s = '+' || s = '-' then
      match twoDigits h1 h2, twoDigits m1 m2 with
      | some hh, some mm =>
        if hh ≤ 23 && mm ≤ 59 then
          let mag : Int := Int.ofNat (hh * 3600 + mm * 60)
          some (if s = '-' then -mag else mag)
        else none
      | _, _ => none
    else none
  | _ => none

/-- Go `time.Parse(time.RFC3339, s)`, returning the absolute instant in
epoch seconds: strict layout `YYYY-MM-DDTHH:MM:SS[.fff](Z|±HH:MM)` with
range validation. -/
def parseRFC3339 (l : List Char) : Option Int :=
  match l with
  | y1 :: y2 :: y3 :: y4 :: '-' :: mo1 :: mo2 :: '-' :: d1 :: d2 :: 'T' ::
      h1 :: h2 :: ':' :: mi1 :: mi2 :: ':' :: s1 :: s2 :: rest =>
    match fourDigits y1 y2 y3 y4, twoDigits mo1 mo2, twoDigits d1 d2,
        twoDigits h1 h2, twoDigits mi1 mi2, twoDigits s1 s2 with
    | some y, some mo, some d, some hh, some mi, some ss =>
      if 1 ≤ mo && mo ≤ 12 && 1 ≤ d && d ≤ daysInMonth (Int.ofNat y) mo &&
          hh ≤ 23 && mi ≤ 59 && ss ≤ 59 then
        match dropFraction rest with
        | some rest' =>
          match parseZoneSuffix rest' with
          | some off =>
            some (civilToEpochUTC
              { year := Int.ofNat y, month := mo, day := d,
                hour := hh, minute := mi, second := ss } - off)
          | none => none
        | none => none
      else none
    | _, _, _, _, _, _ => none
  | _ => none

/-! ## Idempotency lock (src/idempotency/lock.go)

The lock file is modelled as `Option (List Char)` (absent, or its text
content).  `AcquireLock` reads the clock once (`now`, epoch seconds) exactly
as the Go code does.  Between removing a stale lock and retrying the
exclusive create, another process may recreate the file; that interleaving
is the `interference` parameter (`none`: nobody did, the retry's `O_EXCL`
create succeeds; `some c`: the file reappeared with content `c` and the
retry fails, the Go "failed to acquire lock after removing stale lock"
path). -/

/-- Content written by `tryCreateLock`: `"<pid> <RFC3339-UTC>\n"`. -/
def lockContent (pid : Int) (now : Int) : List Char :=
  intToChars pid ++ ' ' :: formatRFC3339 { epoch := now, loc := utcLoc } ++ ['\n']

/-- `parseLockInfo`: whitespace fields, `Atoi` on the first, RFC3339 on the
second; extra fields are ignored. -/
def parseLockInfo (s : List Char) : Option (Int × Int) :=
  match fields s with
  | f0 :: f1 :: _ =>
    match atoi f0 with
    | none => none
    | some pid =>
      match parseRFC3339 f1 with
      | none => none
      | some ts => some (pid, ts)
  | _ => none

inductive AcquireOutcome where
  | acquired
  | invalid
  | held (pid : Int) (age : Int)
  | staleRetryFailed
  deriving DecidableEq, Repr

/-- `AcquireLock(path, maxAge)` over the modelled lock file: fast-path
exclusive create; on conflict read and parse the record; fresh records give
the held error with holder pid and age; stale records are removed and the
create retried exactly once. -/
def AcquireLock (fs : Option (List Char)) (pid : Int) (now maxAge : Int)
    (interference : Option (List Char)) : AcquireOutcome × Option (List Char) :=
  match fs with
  | none => (.acquired, some (lockContent pid now))
  | some content =>
    match parseLockInfo content with
    | none => (.invalid, some content)
    | some (p0, ts) =>
      if now - ts < maxAge then (.held p0 (now - ts), some content)
      else
        match interference with
        | none => (.acquired, some (lockContent pid now))
        | some c => (.staleRetryFailed, some c)

/-! ## Idempotency store (src/idempotency/store.go)

The store file holds a JSON object mapping keys to UTC timestamps; files
this program writes are always well-formed, but an existing file may hold
invalid JSON, hence `Except Unit StoreData` as file content.  The
filesystem is an association list from path to file content; the
write-temp-then-rename sequence of `saveLocked` appears as a single atomic
update of that map. -/

abbrev StoreData : Type := List (List Char × Int)

abbrev StoreFS : Type := List (List Char × Except Unit StoreData)

instance {e a : Type} [DecidableEq e] [DecidableEq a] : DecidableEq (Except e a) :=
  fun x y =>
  match x, y with
  | .error u, .error v =>
    if h : u = v then isTrue (by rw [h])
    else isFalse (by intro hh; cases hh; exact h rfl)
  | .ok u, .ok v =>
    if h : u = v then isTrue (by rw [h])
    else isFalse (by intro hh; cases hh; exact h rfl)
  | .error _, .ok _ => isFalse (by intro h; cases h)
  | .ok _, .error _ => isFalse (by intro h; cases h)

/-- `Open`: load the mapping when the file exists; absence is an empty
store; invalid content is an error. -/
def openStoreFile : Option (Except Unit StoreData) → Except Unit StoreData
  | none => .ok []
  | some (.error e) => .error e
  | some (.ok d) => .ok d

def openStore (fs : StoreFS) (path : List Char) : Except Unit StoreData :=
  openStoreFile (assocLookup path fs)

/-- `Exists`. -/
def existsKey (d : StoreData) (k : List Char) : Bool :=
  (assocLookup k d).isSome

/-- `Mark`: record the key with the current timestamp and persist the whole
mapping (write temp file, atomic rename). -/
def markStore (path : List Char) (d : StoreData) (k : List Char) (now : Int)
    (fs : StoreFS) : Except Unit (StoreData × StoreFS) :=
  let d' := assocSet k now d
  .ok (d', assocSet path (.ok d') fs)

/-! ## Calendar endpoint resolver (src/cal ParseCaldavURL) -/

inductive URLErr where
  | emptyURL
  | missingScheme
  | unsupportedScheme
  | missingAuthority
  | missingCreds
  | missingHost
  | missingUserinfo
  | missingAppleID
  | badUserEscape
  | badPassEscape
  | badSanitized
  deriving DecidableEq, Repr

structure CaldavURL where
  baseURL : List Char
  appleID : List Char
  password : List Char
  hasPass : Bool
  deriving DecidableEq, Repr

def schemeSep : List Char := [':', '/', '/']

def authorityStops : List Char := ['/', '?', '#']

def httpChars : List Char := ['h', 't', 't', 'p']

def httpsChars : List Char := ['h', 't', 't', 'p', 's']

/-- Go `strings.Cut`: before and after the first occurrence of the
separator; the whole string and empty when absent. -/
def cutFirst (ch : Char) (l : List Char) : List Char × List Char :=
  match breakOnFirstChar ch l with
  | some (u, v) => (u, v)
  | none => (l, [])

/-- ASCII control byte (`stringContainsCTLByte` in `net/url`). -/
def isCtl (c : Char) : Bool := c.toNat < 0x20 || c.toNat = 0x7f

/-- Escape well-formedness of `net/url.unescape` in path/fragment modes:
every `%` must be followed by two hex digits; raw characters pass. -/
def validEscapes : List Char → Bool
  | [] => true
  | '%' :: a :: b :: rest => isHexCh a && isHexCh b && validEscapes rest
  | '%' :: _ => false
  | _ :: rest => validEscapes rest

/-- `net/url.validOptionalPort`: empty, or `:` followed by digits only. -/
def validOptionalPort (port : List Char) : Bool :=
  match port with
  | [] => true
  | ':' :: rest => rest.all isDigitCh
  | _ => false

/-- `!shouldEscape(c, encodeHost)` for ASCII characters; non-ASCII bytes
pass through `net/url.unescape` unchecked. -/
def isHostAllowedChar (c : Char) : Bool :=
  0x80 ≤ c.toNat ||
  ('a' ≤ c && c ≤ 'z') || ('A' ≤ c && c ≤ 'Z') || isDigitCh c ||
  c = '-' || c = '_' || c = '.' || c = '~' ||
  c = '!' || c = '$' || c = '&' || c = Char.ofNat 39 ||
  c = '(' || c = ')' || c = '*' || c = '+' || c = ',' || c = ';' || c = '=' ||
  c = ':' || c = '[' || c = ']' || c = '<' || c = '>' || c = Char.ofNat 34

/-- `net/url.unescape` in `encodeHost` mode: `%XX` needs two hex digits and
(per RFC 3986) may only encode non-ASCII bytes — first hex digit at least 8
— except the literal `%25`; raw ASCII characters must be in the allowed
host set. -/
def hostUnescapeOk : List Char → Bool
  | [] => true
  | '%' :: a :: b :: rest =>
    isHexCh a && isHexCh b && (8 ≤ hexVal a || (a = '2' && b = '5')) &&
    hostUnescapeOk rest
  | '%' :: _ => false
  | c :: rest => isHostAllowedChar c && hostUnescapeOk rest

/-- `net/url.parseHost`: bracketed hosts need a closing `]` and a valid
optional port after it; otherwise the part after the last `:` must be a
valid optional port; the whole host must pass host-mode unescaping.  (The
IPv6 zone-identifier `%25` split inside brackets is not special-cased.) -/
def parseHostOk (host : List Char) : Bool :=
  match host with
  | '[' :: _ =>
    match breakOnLastChar ']' host with
    | none => false
    | some (_, after) => validOptionalPort after && hostUnescapeOk host
  | _ =>
    match breakOnLastChar ':' host with
    | none => hostUnescapeOk host
    | some (_, portRest) =>
      validOptionalPort (':' :: portRest) && hostUnescapeOk host

/-- Success predicate of `net/url.Parse` on the sanitized
`scheme://host[:port][/path][?query][#frag]` string rebuilt by
`ParseCaldavURL`: cut the fragment at the first `#` and validate its
escapes; reject control bytes before the fragment; strip the scheme; cut
the query at the first `?` (stored raw, unvalidated); the authority runs to
the first `/` and must pass `parseHost`; the remaining path must have valid
escapes. -/
def urlParseOk (s : List Char) : Bool :=
  let fr := cutFirst '#' s
  if fr.1.any isCtl then false
  else if validEscapes fr.2 = false then false
  else
    match breakOnSub schemeSep fr.1 with
    | none => false
    | some (schemeRaw, rest) =>
      if schemeRaw = [] then false
      else
        let qr := cutFirst '?' rest
        let hp := breakOnFirstAny ['/'] qr.1
        parseHostOk hp.1 && validEscapes hp.2

/-- `ParseCaldavURL`: split `scheme://rest`, cut the authority at the first
of `/?#`, split credentials from host at the **last** `@`, split
user from password at the first `:`, percent-decode user and password
individually, rebuild the base URL without credentials, and validate it as
`url.Parse` does (failure is the "invalid url after sanitizing creds"
error). -/
def ParseCaldavURL (raw : List Char) : Except URLErr CaldavURL :=
  if raw = [] then .error .emptyURL else
  match breakOnSub schemeSep raw with
  | none => .error .missingScheme
  | some (schemeRaw, rest) =>
    if schemeRaw = [] then .error .missingScheme else
    let scheme := toLowerList schemeRaw
    if scheme ≠ httpChars ∧ scheme ≠ httpsChars then .error .unsupportedScheme else
    let split := breakOnFirstAny authorityStops rest
    let authority := split.1
    let remainder := split.2
    if authority = [] then .error .missingAuthority else
    match breakOnLastChar '@' authority with
    | none => .error .missingCreds
    | some (userinfoRaw, hostport) =>
      if hostport = [] then .error .missingHost else
      if userinfoRaw = [] then .error .missingUserinfo else
      let upSplit :=
        match breakOnFirstChar ':' userinfoRaw with
        | some (u, pw) => (u, pw, true)
        | none => (userinfoRaw, [], false)
      let userRaw := upSplit.1
      let passRaw := upSplit.2.1
      let hasPass := upSplit.2.2
      if userRaw = [] then .error .missingAppleID else
      match queryUnescape userRaw with
      | none => .error .badUserEscape
      | some user =>
        match (if hasPass then queryUnescape passRaw else some []) with
        | none => .error .badPassEscape
        | some pass =>
          let sanitized := scheme ++ schemeSep ++ hostport ++ remainder
          if urlParseOk sanitized then
            .ok { baseURL := sanitized,
                  appleID := user, password := pass, hasPass := hasPass }
          else .error .badSanitized

/-- Authority component of a URL string: what stands between `://` and the
first of `/?#`.  A URL carries userinfo exactly when this contains `@`. -/
def urlAuthority (u : List Char) : List Char :=
  match breakOnSub schemeSep u with
  | none => []
  | some (_, rest) => (breakOnFirstAny authorityStops rest).1

def hasUserinfo (u : List Char) : Bool := '@' ∈ urlAuthority u

/-! ## Event extractor (src/main.go: parseICalDateTime, eventsFromCalendar)

An `ICalProp` is a property value plus its parameter map (`ical.Prop`); an
`ICalComponent` is a component name plus its property map keyed by property
name (`ical.Component` as used here).  `time.LoadLocation` is the partial
map `tzdb` from timezone identifiers to locations. -/

structure ICalProp where
  value : List Char
  params : List (List Char × List (List Char))
  deriving DecidableEq, Repr

structure ICalComponent where
  cname : List Char
  props : List (List Char × List ICalProp)
  deriving DecidableEq, Repr

structure Event where
  UID : List Char
  Start : GoTime
  End : GoTime
  Summary : List Char
  Description : List Char
  Comment : List Char
  deriving DecidableEq, Repr

abbrev TZDB : Type := List Char → Option Location

def uidKey : List Char := "UID".data
def dtStartKey : List Char := "DTSTART".data
def dtEndKey : List Char := "DTEND".data
def summaryKey : List Char := "SUMMARY".data
def descriptionKey : List Char := "DESCRIPTION".data
def commentKey : List Char := "COMMENT".data
def valueParamKey : List Char := "VALUE".data
def tzidParamKey : List Char := "TZID".data
def dateTypeName : List Char := "DATE".data
def veventName : List Char := "VEVENT".data
def missingUID : List Char := "(missing-uid)".data

/-- `getParam` closure inside `parseICalDateTime`: first value for the key,
trimmed; empty when absent. -/
def getParam (p : ICalProp) (key : List Char) : List Char :=
  match assocLookup key p.params with
  | some (v :: _) => trimSpace v
  | _ => []

/-- Layout `20060102`: exactly eight digits with validated month/day. -/
def parseDate8 (l : List Char) : Option Civil :=
  match l with
  | [y1, y2, y3, y4, mo1, mo2, d1, d2] =>
    match fourDigits y1 y2 y3 y4, twoDigits mo1 mo2, twoDigits d1 d2 with
    | some y, some mo, some d =>
      if 1 ≤ mo && mo ≤ 12 && 1 ≤ d && d ≤ daysInMonth (Int.ofNat y) mo then
        some { year := Int.ofNat y, month := mo, day := d,
               hour := 0, minute := 0, second := 0 }
      else none
    | _, _, _ => none
  | _ => none

def mkCivilDT (y mo d hh mi ss : Nat) : Option Civil :=
  if 1 ≤ mo && mo ≤ 12 && 1 ≤ d && d ≤ daysInMonth (Int.ofNat y) mo &&
      hh ≤ 23 && mi ≤ 59 && ss ≤ 59 then
    some { year := Int.ofNat y, month := mo, day := d,
           hour := hh, minute := mi, second := ss }
  else none

/-- Layout `20060102T150405`. -/
def parseDT15 (l : List Char) : Option Civil :=
  match l with
  | [y1, y2, y3, y4, mo1, mo2, d1, d2, 'T', h1, h2, mi1, mi2, s1, s2] =>
    match fourDigits y1 y2 y3 y4, twoDigits mo1 mo2, twoDigits d1 d2,
        twoDigits h1 h2, twoDigits mi1 mi2, twoDigits s1 s2 with
    | some y, some mo, some d, some hh, some mi, some ss => mkCivilDT y mo d hh mi ss
    | _, _, _, _, _, _ => none
  | _ => none

/-- Layout `20060102T1504`. -/
def parseDT13 (l : List Char) : Option Civil :=
  match l with
  | [y1, y2, y3, y4, mo1, mo2, d1, d2, 'T', h1, h2, mi1, mi2] =>
    match fourDigits y1 y2 y3 y4, twoDigits mo1 mo2, twoDigits d1 d2,
        twoDigits h1 h2, twoDigits mi1 mi2 with
    | some y, some mo, some d, some hh, some mi => mkCivilDT y mo d hh mi 0
    | _, _, _, _, _ => none
  | _ => none

/-- Layout `20060102T150405Z` (literal `Z`; parsed as UTC). -/
def parseDT15Z (l : List Char) : Option Civil :=
  match l with
  | [y1, y2, y3, y4, mo1, mo2, d1, d2, 'T', h1, h2, mi1, mi2, s1, s2, 'Z'] =>
    parseDT15 [y1, y2, y3, y4, mo1, mo2, d1, d2, 'T', h1, h2, mi1, mi2, s1, s2]
  | _ => none

/-- Layout `20060102T1504Z`. -/
def parseDT13Z (l : List Char) : Option Civil :=
  match l with
  | [y1, y2, y3, y4, mo1, mo2, d1, d2, 'T', h1, h2, mi1, mi2, 'Z'] =>
    parseDT13 [y1, y2, y3, y4, mo1, mo2, d1, d2, 'T', h1, h2, mi1, mi2]
  | _ => none

inductive DTErr where
  | nilProp
  | emptyDatetime
  | badDate
  | unsupportedUTC
  | unsupported
  deriving DecidableEq, Repr

/-- `parseICalDateTime`: trim the value; bare-date branch (explicit `DATE`
type or eight characters without `T`) parses in the default timezone and
flags a whole-day value; `Z`-suffixed values parse as absolute UTC; other
values parse in the `TZID` location when it is recognized, else in the
default timezone. -/
def parseICalDateTime (tzdb : TZDB) (p : ICalProp) (defaultTZ : Location) :
    Except DTErr (GoTime × Bool) :=
  let v := trimSpace p.value
  if v = [] then .error .emptyDatetime else
  let valueType := toUpperList (getParam p valueParamKey)
  let tzid := getParam p tzidParamKey
  if valueType = dateTypeName ∨ (v.length = 8 ∧ ¬ 'T' ∈ v) then
    match parseDate8 v with
    | some c => .ok (timeInLoc c defaultTZ, true)
    | none => .error .badDate
  else if v.getLast? = some 'Z' then
    match parseDT15Z v with
    | some c => .ok ({ epoch := civilToEpochUTC c, loc := utcLoc }, false)
    | none =>
      match parseDT13Z v with
      | some c => .ok ({ epoch := civilToEpochUTC c, loc := utcLoc }, false)
      | none => .error .unsupportedUTC
  else
    let loc :=
      if tzid ≠ [] then
        match tzdb tzid with
        | some l => l
        | none => defaultTZ
      else defaultTZ
    match parseDT15 v with
    | some c => .ok (timeInLoc c loc, false)
    | none =>
      match parseDT13 v with
      | some c => .ok (timeInLoc c loc, false)
      | none => .error .unsupported

/-- `firstProp`. -/
def firstProp (props : List (List Char × List ICalProp)) (name : List Char) :
    Option ICalProp :=
  match assocLookup name props with
  | some (p :: _) => some p
  | _ => none

/-- `firstPropValue`. -/
def firstPropValue (props : List (List Char × List ICalProp)) (name : List Char) :
    List Char :=
  match firstProp props name with
  | none => []
  | some p => trimSpace p.value

/-- Body of the `eventsFromCalendar` loop for one child component:
`none` when the child is skipped (not a `VEVENT`, or no `DTSTART`), an
error when a date fails to parse, otherwise the constructed event. -/
def eventFromComp (tzdb : TZDB) (c : ICalComponent) (defaultTZ : Location) :
    Except DTErr (Option Event) :=
  if c.cname ≠ veventName then .ok none else
  let uid0 := firstPropValue c.props uidKey
  let uid := if uid0 = [] then missingUID else uid0
  match firstProp c.props dtStartKey with
  | none => .ok none
  | some dtStart =>
    match parseICalDateTime tzdb dtStart defaultTZ with
    | .error e => .error e
    | .ok (start, startIsDate) =>
      match firstProp c.props dtEndKey with
      | some dtEnd =>
        match parseICalDateTime tzdb dtEnd defaultTZ with
        | .error e => .error e
        | .ok (endT, _) =>
          .ok (some { UID := uid, Start := start, End := endT,
                      Summary := firstPropValue c.props summaryKey,
                      Description := firstPropValue c.props descriptionKey,
                      Comment := firstPropValue c.props commentKey })
      | none =>
        let endT := if startIsDate then start.add 86400 else start
        .ok (some { UID := uid, Start := start, End := endT,
                    Summary := firstPropValue c.props summaryKey,
                    Description := firstPropValue c.props descriptionKey,
                    Comment := firstPropValue c.props commentKey })

/-- `eventsFromCalendar` over the calendar's children: the Go loop returns
on the first date-parse error and otherwise collects one event per
qualifying `VEVENT`. -/
def eventsFromChildren (tzdb : TZDB) (children : List ICalComponent)
    (defaultTZ : Location) : Except DTErr (List Event) :=
  match children with
  | [] => .ok []
  | c :: rest =>
    match eventFromComp tzdb c defaultTZ with
    | .error e => .error e
    | .ok none => eventsFromChildren tzdb rest defaultTZ
    | .ok (some ev) =>
      match eventsFromChildren tzdb rest defaultTZ with
      | .error e => .error e
      | .ok evs => .ok (ev :: evs)

abbrev ICalCalendar : Type := List ICalComponent

def eventsFromCalendar (tzdb : TZDB) (c : ICalCalendar) (defaultTZ : Location) :
    Except DTErr (List Event) :=
  eventsFromChildren tzdb c defaultTZ

/-! ## Per-blob processing inside `execute`

A calendar-data blob decodes to a sequence of calendar objects; the inner
loop of `execute` stops processing a blob at the first decode or
extraction error (`break`) and continues with the next blob. -/

abbrev Blob : Type := List ICalCalendar

def processBlob (tzdb : TZDB) (b : Blob) (defaultTZ : Location) : List Event :=
  match b with
  | [] => []
  | c :: rest =>
    match eventsFromCalendar tzdb c defaultTZ with
    | .error _ => []
    | .ok evs => evs ++ processBlob tzdb rest defaultTZ

def processBlobs (tzdb : TZDB) (bs : List Blob) (defaultTZ : Location) :
    List Event :=
  match bs with
  | [] => []
  | b :: rest => processBlob tzdb b defaultTZ ++ processBlobs tzdb rest defaultTZ

/-! ## Notification key (src/main.go eventMessageKey) -/

def keySep : List Char := "|T-".data

/-- `eventMessageKey`: UID, the start instant formatted as RFC3339 in the
event's own zone representation, and the configured day offset. -/
def eventMessageKey (offset : Int) (event : Event) : List Char :=
  event.UID ++ '|' :: formatRFC3339 event.Start ++ keySep ++ intToChars offset ++ ['d']

/-! ## Orchestrator (src/main.go: main and run)

The externals of one invocation are gathered in `RunEnv`: the lock file and
possible cross-process interference, the store filesystem, the raw caldav
connection string, the `LoadLocation` result for the configured timezone
(`none`: unknown zone), the abstracted network fetch (`execute`), and the
external phone-extraction, template-rendering and SMS-send capabilities.

`run` mirrors the Go control flow exactly, including its two irregular
exits: any lock-acquisition failure calls `os.Exit(0)`, and a timezone load
failure calls `log.Fatal`, which exits with code 1 *without running the
deferred `lock.Release()`*.  `RunResult` records which exit was taken, the
process exit code (`main` wraps a returned error in `log.Fatal`, code 1),
and whether the lock was acquired and released. -/

inductive ExitPath where
  | tmplErr
  | lockHeld
  | lockInvalid
  | lockStaleFail
  | storeErr
  | parseErr
  | tzErr
  | fetchErr
  | renderErr
  | sendErr
  | markErr
  | success
  deriving DecidableEq, Repr

structure RunResult where
  path : ExitPath
  exitCode : Nat
  lockAcquired : Bool
  lockReleased : Bool
  deriving DecidableEq, Repr

structure RunEnv where
  tmplOk : Bool
  lockFile : Option (List Char)
  interference : Option (List Char)
  pid : Int
  now : Int
  storeFS : StoreFS
  statePath : List Char
  caldav : List Char
  tz : Option Location
  fetch : Except Unit (List Event)
  offset : Int
  dryRun : Bool
  phoneOf : Event → Option (List Char)
  render : Event → Except Unit (List Char)
  send : List Char → List Char → Except Unit Unit

/-- The per-event loop of `run`: skip events without a phone number or with
an already-marked key; a render or send failure returns the error (exit 1
after `main`'s `log.Fatal`, deferred release having run); otherwise mark
and continue; dry runs only print. -/
def runLoop (env : RunEnv) : List Event → StoreData → StoreFS → RunResult
  | [], _, _ => ⟨.success, 0, true, true⟩
  | e :: rest, d, fs =>
    match env.phoneOf e with
    | none => runLoop env rest d fs
    | some num =>
      let key := eventMessageKey env.offset e
      if existsKey d key then runLoop env rest d fs
      else
        match env.render e with
        | .error _ => ⟨.renderErr, 1, true, true⟩
        | .ok m =>
          if env.dryRun then runLoop env rest d fs
          else
            match env.send num m with
            | .error _ => ⟨.sendErr, 1, true, true⟩
            | .ok _ =>
              match markStore env.statePath d key env.now fs with
              | .error _ => ⟨.markErr, 1, true, true⟩
              | .ok (d', fs') => runLoop env rest d' fs'

/-- `main`/`run`: template parse; lock acquisition (any failure exits
quietly with code 0); deferred release; store open; connection-string
parse; timezone load (failure exits through `log.Fatal`, skipping the
deferred release); fetch; then the event loop. -/
def run (env : RunEnv) : RunResult :=
  if env.tmplOk = false then ⟨.tmplErr, 1, false, false⟩ else
  match (AcquireLock env.lockFile env.pid env.now 60 env.interference).1 with
  | .held _ _ => ⟨.lockHeld, 0, false, false⟩
  | .invalid => ⟨.lockInvalid, 0, false, false⟩
  | .staleRetryFailed => ⟨.lockStaleFail, 0, false, false⟩
  | .acquired =>
    match openStore env.storeFS env.statePath with
    | .error _ => ⟨.storeErr, 1, true, true⟩
    | .ok d =>
      match ParseCaldavURL env.caldav with
      | .error _ => ⟨.parseErr, 1, true, true⟩
      | .ok _ =>
        match env.tz with
        | none => ⟨.tzErr, 1, true, false⟩
        | some _ =>
          match env.fetch with
          | .error _ => ⟨.fetchErr, 1, true, true⟩
          | .ok events => runLoop env events d env.storeFS

/-! ## Shared lemmas -/

theorem assocLookup_assocSet_self {α : Type} [DecidableEq α] {β : Type}
    (k : α) (v : β) (l : List (α × β)) :
    assocLookup k (assocSet k v l) = some v := by
  induction l with
  | nil => simp [assocSet, assocLookup]
  | cons e rest ih =>
    by_cases h : e.1 = k
    · simp [assocSet, assocLookup, h]
    · simpa [assocSet, assocLookup, h] using ih

theorem existsKey_assocSet_self (d : StoreData) (k : List Char) (t : Int) :
    existsKey (assocSet k t d) k = true := by
  simp [existsKey, assocLookup_assocSet_self]

/-! ## Claims about the idempotency lock -/

/-- C1: lock acquisition is the three-state mutual-exclusion machine: with a
fresh record (age < maxAge) a second acquire fails with the held error
carrying the holder pid and the age; with a stale record (age ≥ maxAge) the
record is deleted and the exclusive create retried exactly once, succeeding
and overwriting the record when nothing interferes; a failure of that
single retry is the fatal stale-retry error. -/
theorem c1_lock_acquire_state_machine
    (content : List Char) (p0 ts pid now maxAge : Int)
    (interference : Option (List Char))
    (hparse : parseLockInfo content = some (p0, ts)) :
    (now - ts < maxAge →
      AcquireLock (some content) pid now maxAge interference
        = (.held p0 (now - ts), some content)) ∧
    (maxAge ≤ now - ts → interference = none →
      AcquireLock (some content) pid now maxAge interference
        = (.acquired, some (lockContent pid now))) ∧
    (maxAge ≤ now - ts → ∀ c, interference = some c →
      AcquireLock (some content) pid now maxAge interference
        = (.staleRetryFailed, some c)) := by
  refine ⟨fun h => ?_, fun h hi => ?_, fun h c hi => ?_⟩
  · simp [AcquireLock, hparse, h]
  · subst hi; simp [AcquireLock, hparse, not_lt.mpr h]
  · subst hi; simp [AcquireLock, hparse, not_lt.mpr h]

def lockSample : List Char := "42 2024-01-15T09:00:00Z\n".data

theorem c1_lock_acquire_state_machine_witness :
    parseLockInfo lockSample = some (42, 1705309200) ∧
    AcquireLock (some lockSample) 7 1705309230 60 none
      = (.held 42 30, some lockSample) ∧
    AcquireLock (some lockSample) 7 1705309290 60 none
      = (.acquired, some (lockContent 7 1705309290)) ∧
    AcquireLock (some lockSample) 7 1705309290 60 (some ['x'])
      = (.staleRetryFailed, some ['x']) := by
  have hp : parseLockInfo lockSample = some (42, 1705309200) := by decide
  refine ⟨hp, ?_, ?_, ?_⟩
  · have := (c1_lock_acquire_state_machine lockSample 42 1705309200 7 1705309230 60
      none hp).1 (by decide)
    simpa using this
  · exact (c1_lock_acquire_state_machine lockSample 42 1705309200 7 1705309290 60
      none hp).2.1 (by decide) rfl
  · exact (c1_lock_acquire_state_machine lockSample 42 1705309200 7 1705309290 60
      (some ['x']) hp).2.2 (by decide) ['x'] rfl

/-- C9: a lock file whose content does not parse (fewer than two fields,
non-numeric id, or invalid timestamp) makes acquisition fail with the
invalid-record error and leaves the file in place, regardless of the file's
age and of any interference, so every future acquisition is blocked until
the file is removed out of band. -/
theorem c9_corrupted_lock_blocks_acquisition
    (content : List Char) (pid now maxAge : Int)
    (interference : Option (List Char))
    (h : parseLockInfo content = none) :
    AcquireLock (some content) pid now maxAge interference
      = (.invalid, some content) := by
  simp [AcquireLock, h]

def lockBadOneField : List Char := "garbage".data
def lockBadPid : List Char := "12x 2024-01-15T09:00:00Z".data
def lockBadTimestamp : List Char := "12 2024-13-15T09:00:00Z".data

theorem c9_corrupted_lock_blocks_acquisition_witness :
    AcquireLock (some lockBadOneField) 7 1705309230 60 none
      = (.invalid, some lockBadOneField) ∧
    AcquireLock (some lockBadPid) 7 9999999999 60 none
      = (.invalid, some lockBadPid) ∧
    AcquireLock (some lockBadTimestamp) 7 1705309230 60 (some ['x'])
      = (.invalid, some lockBadTimestamp) :=
  ⟨c9_corrupted_lock_blocks_acquisition lockBadOneField 7 1705309230 60 none (by decide),
   c9_corrupted_lock_blocks_acquisition lockBadPid 7 9999999999 60 none (by decide),
   c9_corrupted_lock_blocks_acquisition lockBadTimestamp 7 1705309230 60 (some ['x'])
     (by decide)⟩

/-! ## Claim about the idempotency store -/

/-- C2: for every key and every successfully opened store, `Mark` is
idempotent — marking twice succeeds both times and leaves the key present —
and durable: after a successful `Mark`, reopening the store from the same
path yields a store in which the key exists. -/
theorem c2_mark_idempotent_durable
    (fs : StoreFS) (path k : List Char) (t1 t2 : Int) (d : StoreData)
    (_hopen : openStore fs path = .ok d) :
    ∃ d1 fs1 d2 fs2,
      markStore path d k t1 fs = .ok (d1, fs1) ∧
      existsKey d1 k = true ∧
      markStore path d1 k t2 fs1 = .ok (d2, fs2) ∧
      existsKey d2 k = true ∧
      openStore fs1 path = .ok d1 ∧
      openStore fs2 path = .ok d2 := by
  refine ⟨assocSet k t1 d, _, assocSet k t2 (assocSet k t1 d), _, rfl,
    existsKey_assocSet_self .., rfl, existsKey_assocSet_self .., ?_, ?_⟩ <;>
    simp [openStore, openStoreFile, assocLookup_assocSet_self]

def storePathW : List Char := "sent.json".data
def storeKeyW : List Char := "E1|2024-03-01T09:00:00+01:00|T-1d".data

theorem c2_mark_idempotent_durable_witness :
    openStore ([] : StoreFS) storePathW = .ok [] ∧
    ∃ d1 fs1 d2 fs2,
      markStore storePathW [] storeKeyW 100 ([] : StoreFS) = .ok (d1, fs1) ∧
      existsKey d1 storeKeyW = true ∧
      markStore storePathW d1 storeKeyW 200 fs1 = .ok (d2, fs2) ∧
      existsKey d2 storeKeyW = true ∧
      openStore fs1 storePathW = .ok d1 ∧
      openStore fs2 storePathW = .ok d2 :=
  ⟨rfl, c2_mark_idempotent_durable [] storePathW storeKeyW 100 200 [] rfl⟩

/-! ## Claim about the notification key -/

def c10LocCET : Location := { name := "CET".data, offset := 3600 }

def c10Event1 : Event :=
  { UID := "E1".data,
    Start := { epoch := 1709280000, loc := c10LocCET },
    End := { epoch := 1709280000, loc := c10LocCET },
    Summary := [], Description := [], Comment := [] }

def c10Event2 : Event :=
  { UID := "E1".data,
    Start := { epoch := 1709280000, loc := utcLoc },
    End := { epoch := 1709280000, loc := utcLoc },
    Summary := [], Description := [], Comment := [] }

/-- C10: the notification key embeds the start formatted as RFC3339 with
its UTC offset, so two events denoting the same absolute instant
(09:00:00+01:00 and 08:00:00Z) with equal UID and lead-time derive
different keys. -/
theorem c10_key_depends_on_zone_representation :
    c10Event1.UID = c10Event2.UID ∧
    c10Event1.Start.epoch = c10Event2.Start.epoch ∧
    formatRFC3339 c10Event1.Start = "2024-03-01T09:00:00+01:00".data ∧
    formatRFC3339 c10Event2.Start = "2024-03-01T08:00:00Z".data ∧
    eventMessageKey 1 c10Event1 ≠ eventMessageKey 1 c10Event2 := by
  refine ⟨rfl, rfl, by decide, by decide, by decide⟩

/-! ## Claims about the orchestrator's exit behaviour -/

/-- Every exit of `runLoop` is one of its three constant results. -/
theorem runLoop_cases (env : RunEnv) (es : List Event) (d : StoreData)
    (fs : StoreFS) :
    runLoop env es d fs = ⟨.success, 0, true, true⟩ ∨
    runLoop env es d fs = ⟨.renderErr, 1, true, true⟩ ∨
    runLoop env es d fs = ⟨.sendErr, 1, true, true⟩ := by
  induction es generalizing d fs with
  | nil => left; rfl
  | cons e rest ih =>
    rw [runLoop]
    rcases hp : env.phoneOf e with _ | num
    · exact ih d fs
    · simp only []
      split
      · exact ih d fs
      · rcases hr : env.render e with _ | m
        · right; left; rfl
        · simp only []
          split
          · exact ih d fs
          · rcases hs : env.send num m with _ | u
            · right; right; rfl
            · simp only [markStore]
              exact ih _ _

/-- Every exit of `run` is one of its constant results. -/
theorem run_cases (env : RunEnv) :
    run env = ⟨.tmplErr, 1, false, false⟩ ∨
    run env = ⟨.lockHeld, 0, false, false⟩ ∨
    run env = ⟨.lockInvalid, 0, false, false⟩ ∨
    run env = ⟨.lockStaleFail, 0, false, false⟩ ∨
    run env = ⟨.storeErr, 1, true, true⟩ ∨
    run env = ⟨.parseErr, 1, true, true⟩ ∨
    run env = ⟨.tzErr, 1, true, false⟩ ∨
    run env = ⟨.fetchErr, 1, true, true⟩ ∨
    run env = ⟨.renderErr, 1, true, true⟩ ∨
    run env = ⟨.sendErr, 1, true, true⟩ ∨
    run env = ⟨.success, 0, true, true⟩ := by
  rw [run]
  split
  · tauto
  rcases (AcquireLock env.lockFile env.pid env.now 60 env.interference).1 <;>
    simp only []
  case acquired =>
    rcases openStore env.storeFS env.statePath with _ | d
    · tauto
    simp only []
    rcases ParseCaldavURL env.caldav with _ | cu
    · tauto
    simp only []
    rcases env.tz with _ | loc
    · tauto
    simp only []
    rcases env.fetch with _ | events
    · tauto
    simp only []
    rcases runLoop_cases env events d env.storeFS with h | h | h <;> rw [h] <;> tauto
  all_goals tauto

/-- A run environment in which everything is healthy except that the
configured timezone is unknown (`time.LoadLocation` fails). -/
def c6Env : RunEnv :=
  { tmplOk := true,
    lockFile := none,
    interference := none,
    pid := 7,
    now := 1705309200,
    storeFS := [],
    statePath := "sent.json".data,
    caldav := "https://u:p@h/".data,
    tz := none,
    fetch := .ok [],
    offset := 1,
    dryRun := true,
    phoneOf := fun _ => none,
    render := fun _ => .ok [],
    send := fun _ _ => .ok () }

/-- C6: the spec says the lock is released on every exit path reached after
acquisition, but the timezone-load-failure path exits through `log.Fatal`
(`os.Exit(1)`), which skips the deferred `lock.Release()`: on `c6Env` the
lock is acquired, the run exits on the timezone path with code 1, and the
lock is not released. -/
theorem c6_timezone_fatal_skips_release :
    (run c6Env).lockAcquired = true ∧
    (run c6Env).lockReleased = false ∧
    (run c6Env).path = ExitPath.tzErr ∧
    (run c6Env).exitCode = 1 := by
  decide

/-- A run environment whose lock file exists but holds an unparseable
record. -/
def c7Env : RunEnv :=
  { tmplOk := true,
    lockFile := some ("garbage".data),
    interference := none,
    pid := 7,
    now := 1705309200,
    storeFS := [],
    statePath := "sent.json".data,
    caldav := "https://u:p@h/".data,
    tz := some utcLoc,
    fetch := .ok [],
    offset := 1,
    dryRun := true,
    phoneOf := fun _ => none,
    render := fun _ => .ok [],
    send := fun _ _ => .ok () }

/-- C7 counterexample: an invalid lock record — a lock-state failure that is
not the held case — makes `run` exit with code 0, where the claim demands a
non-zero exit code. -/
theorem c7_exit_code_counterexample :
    (run c7Env).path = ExitPath.lockInvalid ∧ (run c7Env).exitCode = 0 := by
  decide

/-- C7 amended: the exit code is 0 exactly on success or on any
lock-acquisition failure (held by another run, invalid lock record, or
failure to re-acquire after clearing a stale lock); it is non-zero on every
other fatal error (template parse, store open, malformed connection string,
timezone load, protocol fetch, message render, delivery). -/
theorem c7_exit_code_amended (env : RunEnv) :
    (run env).exitCode = 0 ↔
      ((run env).path = ExitPath.success ∨
       (run env).path = ExitPath.lockHeld ∨
       (run env).path = ExitPath.lockInvalid ∨
       (run env).path = ExitPath.lockStaleFail) := by
  rcases run_cases env with h | h | h | h | h | h | h | h | h | h | h <;>
    rw [h] <;> simp

/-! ## Claim about date/time resolution -/

theorem parseDate8_time_zero {l : List Char} {c : Civil}
    (h : parseDate8 l = some c) :
    c.hour = 0 ∧ c.minute = 0 ∧ c.second = 0 := by
  unfold parseDate8 at h
  split at h
  · split at h
    · split at h
      · simp only [Option.some.injEq] at h
        subst h
        exact ⟨rfl, rfl, rfl⟩
      · simp at h
    · simp at h
  · simp at h

/-- C3: date/time resolution priorities: a bare 8-digit date (or one
explicitly typed `DATE`) resolves to midnight in the default timezone and,
absent an explicit end, the event's end is exactly 24 hours after its
start; a `Z`-suffixed value resolves to the absolute UTC instant regardless
of any `TZID` parameter or default timezone; a recognized `TZID` resolves in
that zone while an unrecognized `TZID` or no marker falls back to the
default timezone; a timed event with no end gets end equal to start. -/
theorem c3_datetime_resolution :
    (∀ (tzdb : TZDB) (tz : Location) (p : ICalProp) (c : Civil),
      (toUpperList (getParam p valueParamKey) = dateTypeName ∨
        ((trimSpace p.value).length = 8 ∧ ¬ ('T' ∈ trimSpace p.value))) →
      parseDate8 (trimSpace p.value) = some c →
      parseICalDateTime tzdb p tz = .ok (timeInLoc c tz, true) ∧
        ((timeInLoc c tz).epoch + tz.offset) % 86400 = 0) ∧
    (∀ (tzdb : TZDB) (tz : Location) (comp : ICalComponent) (q : ICalProp)
        (t : GoTime),
      comp.cname = veventName →
      firstProp comp.props dtStartKey = some q →
      parseICalDateTime tzdb q tz = .ok (t, true) →
      firstProp comp.props dtEndKey = none →
      ∃ ev, eventFromComp tzdb comp tz = .ok (some ev) ∧
        ev.Start = t ∧ ev.End = t.add 86400) ∧
    (∀ (tzdb : TZDB) (tz : Location) (p : ICalProp) (c : Civil),
      ¬(toUpperList (getParam p valueParamKey) = dateTypeName ∨
        ((trimSpace p.value).length = 8 ∧ ¬ ('T' ∈ trimSpace p.value))) →
      (trimSpace p.value).getLast? = some 'Z' →
      parseDT15Z (trimSpace p.value) = some c →
      parseICalDateTime tzdb p tz
        = .ok ({ epoch := civilToEpochUTC c, loc := utcLoc }, false)) ∧
    (∀ (tzdb : TZDB) (tz : Location) (p : ICalProp) (c : Civil) (l : Location),
      ¬(toUpperList (getParam p valueParamKey) = dateTypeName ∨
        ((trimSpace p.value).length = 8 ∧ ¬ ('T' ∈ trimSpace p.value))) →
      ¬((trimSpace p.value).getLast? = some 'Z') →
      getParam p tzidParamKey ≠ [] →
      tzdb (getParam p tzidParamKey) = some l →
      parseDT15 (trimSpace p.value) = some c →
      parseICalDateTime tzdb p tz = .ok (timeInLoc c l, false)) ∧
    (∀ (tzdb : TZDB) (tz : Location) (p : ICalProp) (c : Civil),
      ¬(toUpperList (getParam p valueParamKey) = dateTypeName ∨
        ((trimSpace p.value).length = 8 ∧ ¬ ('T' ∈ trimSpace p.value))) →
      ¬((trimSpace p.value).getLast? = some 'Z') →
      (getParam p tzidParamKey = [] ∨ tzdb (getParam p tzidParamKey) = none) →
      parseDT15 (trimSpace p.value) = some c →
      parseICalDateTime tzdb p tz = .ok (timeInLoc c tz, false)) ∧
    (∀ (tzdb : TZDB) (tz : Location) (comp : ICalComponent) (q : ICalProp)
        (t : GoTime),
      comp.cname = veventName →
      firstProp comp.props dtStartKey = some q →
      parseICalDateTime tzdb q tz = .ok (t, false) →
      firstProp comp.props dtEndKey = none →
      ∃ ev, eventFromComp tzdb comp tz = .ok (some ev) ∧
        ev.Start = t ∧ ev.End = t) := by
  refine ⟨?_, ?_, ?_, ?_, ?_, ?_⟩
  · intro tzdb tz p c hcond h8
    have hne : trimSpace p.value ≠ [] := by
      intro hv; rw [hv] at h8; simp [parseDate8] at h8
    obtain ⟨hh, hm, hs⟩ := parseDate8_time_zero h8
    constructor
    · simp only [parseICalDateTime]
      rw [if_neg hne, if_pos hcond, h8]
    · simp [timeInLoc, civilToEpochUTC, hh, hm, hs, Int.mul_emod_left]
  · intro tzdb tz comp q t hname hstart hparse hend
    simp only [eventFromComp]
    rw [if_neg (by simp [hname])]
    simp only [hstart, hparse, hend]
    exact ⟨_, rfl, rfl, by simp⟩
  · intro tzdb tz p c hnot hz h15z
    have hne : trimSpace p.value ≠ [] := by
      intro hv; rw [hv] at h15z; simp [parseDT15Z] at h15z
    simp only [parseICalDateTime]
    rw [if_neg hne, if_neg hnot, if_pos hz, h15z]
  · intro tzdb tz p c l hnot hz htzid hdb h15
    have hne : trimSpace p.value ≠ [] := by
      intro hv; rw [hv] at h15; simp [parseDT15] at h15
    simp only [parseICalDateTime]
    rw [if_neg hne, if_neg hnot, if_neg hz, if_pos htzid, hdb, h15]
  · intro tzdb tz p c hnot hz hfall h15
    have hne : trimSpace p.value ≠ [] := by
      intro hv; rw [hv] at h15; simp [parseDT15] at h15
    simp only [parseICalDateTime]
    rw [if_neg hne, if_neg hnot, if_neg hz]
    rcases hfall with hfall | hfall
    · rw [if_neg (by simp [hfall]), h15]
    · by_cases he : getParam p tzidParamKey = []
      · rw [if_neg (by simp [he]), h15]
      · rw [if_pos he, hfall, h15]
  · intro tzdb tz comp q t hname hstart hparse hend
    simp only [eventFromComp]
    rw [if_neg (by simp [hname])]
    simp only [hstart, hparse, hend]
    exact ⟨_, rfl, rfl, by simp⟩

def viennaLoc : Location := { name := "Europe/Vienna".data, offset := 3600 }

def nyChars : List Char := "America/New_York".data

def nyLoc : Location := { name := nyChars, offset := -18000 }

def tzdbW : TZDB := fun t => if t = nyChars then some nyLoc else none

def pDateW : ICalProp := { value := "20240115".data, params := [] }

def cDateW : Civil :=
  { year := 2024, month := 1, day := 15, hour := 0, minute := 0, second := 0 }

def uidPropW : ICalProp := { value := "E1".data, params := [] }

def compAllDayW : ICalComponent :=
  { cname := veventName, props := [(uidKey, [uidPropW]), (dtStartKey, [pDateW])] }

def pUTCW : ICalProp :=
  { value := "20240115T090000Z".data, params := [(tzidParamKey, [nyChars])] }

def cTimedW : Civil :=
  { year := 2024, month := 1, day := 15, hour := 9, minute := 0, second := 0 }

def pTZW : ICalProp :=
  { value := "20240115T090000".data, params := [(tzidParamKey, [nyChars])] }

def pBadTZW : ICalProp :=
  { value := "20240115T090000".data, params := [(tzidParamKey, ["Nowhere/X".data])] }

def compTimedW : ICalComponent :=
  { cname := veventName, props := [(dtStartKey, [pUTCW])] }

theorem c3_datetime_resolution_witness :
    parseICalDateTime tzdbW pDateW viennaLoc
      = .ok (timeInLoc cDateW viennaLoc, true) ∧
    (∃ ev, eventFromComp tzdbW compAllDayW viennaLoc = .ok (some ev) ∧
      ev.Start = timeInLoc cDateW viennaLoc ∧
      ev.End = (timeInLoc cDateW viennaLoc).add 86400) ∧
    parseICalDateTime tzdbW pUTCW viennaLoc
      = .ok ({ epoch := civilToEpochUTC cTimedW, loc := utcLoc }, false) ∧
    parseICalDateTime tzdbW pTZW viennaLoc
      = .ok (timeInLoc cTimedW nyLoc, false) ∧
    parseICalDateTime tzdbW pBadTZW viennaLoc
      = .ok (timeInLoc cTimedW viennaLoc, false) ∧
    (∃ ev, eventFromComp tzdbW compTimedW viennaLoc = .ok (some ev) ∧
      ev.Start = { epoch := civilToEpochUTC cTimedW, loc := utcLoc } ∧
      ev.End = ({ epoch := civilToEpochUTC cTimedW, loc := utcLoc } : GoTime)) := by
  obtain ⟨hA, hA2, hB, hC, hD, hE⟩ := c3_datetime_resolution
  have h1 := (hA tzdbW viennaLoc pDateW cDateW (by decide) (by decide)).1
  have h2 := hA2 tzdbW viennaLoc compAllDayW pDateW (timeInLoc cDateW viennaLoc)
    (by decide) (by decide) h1 (by decide)
  have h3 := hB tzdbW viennaLoc pUTCW cTimedW (by decide) (by decide) (by decide)
  have h4 := hC tzdbW viennaLoc pTZW cTimedW nyLoc (by decide) (by decide)
    (by decide) (by decide) (by decide)
  have h5 := hD tzdbW viennaLoc pBadTZW cTimedW (by decide) (by decide)
    (Or.inr (by decide)) (by decide)
  have h6 := hE tzdbW viennaLoc compTimedW pUTCW
    { epoch := civilToEpochUTC cTimedW, loc := utcLoc } (by decide) (by decide)
    h3 (by decide)
  exact ⟨h1, h2, h3, h4, h5, h6⟩

/-! ## Claim about per-blob error isolation -/

/-- A `VEVENT` child whose `DTSTART` fails to parse makes the whole
`eventsFromCalendar` call return an error (the loop returns on the first
failing date), never a silently reduced event list. -/
theorem eventsFromChildren_error_of_mem (tzdb : TZDB) (tz : Location)
    (children : List ICalComponent) (comp : ICalComponent) (q : ICalProp)
    (e : DTErr)
    (hmem : comp ∈ children) (hname : comp.cname = veventName)
    (hprop : firstProp comp.props dtStartKey = some q)
    (hbad : parseICalDateTime tzdb q tz = .error e) :
    ∃ e', eventsFromChildren tzdb children tz = .error e' := by
  induction children with
  | nil => cases hmem
  | cons c rest ih =>
    rcases List.mem_cons.mp hmem with rfl | hmem'
    · have hcomp : eventFromComp tzdb comp tz = .error e := by
        simp only [eventFromComp]
        rw [if_neg (by simp [hname])]
        simp only [hprop, hbad]
      rw [eventsFromChildren]
      simp only [hcomp]
      exact ⟨e, rfl⟩
    · obtain ⟨e', he'⟩ := ih hmem'
      rw [eventsFromChildren]
      rcases hc : eventFromComp tzdb c tz with e'' | oev
      · exact ⟨e'', rfl⟩
      · rcases oev with _ | ev
        · exact ⟨e', by simp only [he']⟩
        · exact ⟨e', by simp only [he']⟩

theorem processBlobs_append (tzdb : TZDB) (tz : Location) (xs ys : List Blob) :
    processBlobs tzdb (xs ++ ys) tz
      = processBlobs tzdb xs tz ++ processBlobs tzdb ys tz := by
  induction xs with
  | nil => simp [processBlobs]
  | cons b rest ih => simp [processBlobs, ih, List.append_assoc]

/-- Events a calendar object contributes when it parses cleanly. -/
def calEventsOr (tzdb : TZDB) (c : ICalCalendar) (tz : Location) : List Event :=
  match eventsFromCalendar tzdb c tz with
  | .ok evs => evs
  | .error _ => []

theorem processBlob_of_ok (tzdb : TZDB) (tz : Location) (b : Blob)
    (h : ∀ c ∈ b, ∃ evs, eventsFromCalendar tzdb c tz = .ok evs) :
    processBlob tzdb b tz = (b.map (fun c => calEventsOr tzdb c tz)).flatten := by
  induction b with
  | nil => rfl
  | cons c rest ih =>
    obtain ⟨evs, hevs⟩ := h c (by simp)
    rw [processBlob]
    simp only [hevs, List.map_cons, List.flatten_cons]
    rw [ih (fun c' hc' => h c' (by simp [hc']))]
    simp [calEventsOr, hevs]

/-- C5: within one fetch, a calendar-data blob containing an event whose
`DTSTART` fails every recognized pattern makes extraction fail for that
blob — `eventsFromCalendar` propagates an error and the blob contributes no
events — while sibling blobs containing only valid events are still parsed
and contribute all their events. -/
theorem c5_malformed_date_fatal_per_blob (tzdb : TZDB) (tz : Location)
    (good1 good2 : List Blob) (badCal : ICalCalendar)
    (comp : ICalComponent) (q : ICalProp) (e : DTErr)
    (hmem : comp ∈ badCal) (hname : comp.cname = veventName)
    (hprop : firstProp comp.props dtStartKey = some q)
    (hbad : parseICalDateTime tzdb q tz = .error e)
    (hgood : ∀ b ∈ good1 ++ good2, ∀ c ∈ b,
      ∃ evs, eventsFromCalendar tzdb c tz = .ok evs) :
    (∃ e', eventsFromCalendar tzdb badCal tz = .error e') ∧
    processBlob tzdb [badCal] tz = [] ∧
    processBlobs tzdb (good1 ++ [badCal] :: good2) tz
      = processBlobs tzdb good1 tz ++ processBlobs tzdb good2 tz ∧
    (∀ b ∈ good1 ++ good2, processBlob tzdb b tz
      = (b.map (fun c => calEventsOr tzdb c tz)).flatten) := by
  obtain ⟨e', he'⟩ :=
    eventsFromChildren_error_of_mem tzdb tz badCal comp q e hmem hname hprop hbad
  have he2 : eventsFromCalendar tzdb badCal tz = .error e' := he'
  have hblob : processBlob tzdb [badCal] tz = [] := by
    rw [processBlob]
    simp only [he2]
  refine ⟨⟨e', he2⟩, hblob, ?_, ?_⟩
  · have : good1 ++ [badCal] :: good2 = good1 ++ [[badCal]] ++ good2 := by simp
    rw [this, processBlobs_append, processBlobs_append]
    have hmid : processBlobs tzdb [[badCal]] tz = [] := by
      simp [processBlobs, hblob]
    rw [hmid]
    simp
  · intro b hb
    exact processBlob_of_ok tzdb tz b (hgood b hb)

def badPropW : ICalProp := { value := "not-a-date".data, params := [] }

def badCompW : ICalComponent :=
  { cname := veventName, props := [(dtStartKey, [badPropW])] }

def badCalW : ICalCalendar := [badCompW]

def gBlobW : Blob := [[compTimedW]]

def g2BlobW : Blob := [[compAllDayW]]

theorem c5_malformed_date_fatal_per_blob_witness :
    (∃ e', eventsFromCalendar tzdbW badCalW viennaLoc = .error e') ∧
    processBlob tzdbW [badCalW] viennaLoc = [] ∧
    processBlobs tzdbW ([gBlobW] ++ [badCalW] :: [g2BlobW]) viennaLoc
      = processBlobs tzdbW [gBlobW] viennaLoc
        ++ processBlobs tzdbW [g2BlobW] viennaLoc ∧
    (∀ b ∈ [gBlobW] ++ [g2BlobW], processBlob tzdbW b viennaLoc
      = (b.map (fun c => calEventsOr tzdbW c viennaLoc)).flatten) := by
  have hgood : ∀ b ∈ ([gBlobW] ++ [g2BlobW]), ∀ c ∈ b,
      ∃ evs, eventsFromCalendar tzdbW c viennaLoc = .ok evs := by
    intro b hb c hc
    simp only [List.mem_append, List.mem_singleton] at hb
    rcases hb with rfl | rfl <;>
      (simp only [gBlobW, g2BlobW, List.mem_singleton] at hc; subst hc;
        exact ⟨_, rfl⟩)
  exact c5_malformed_date_fatal_per_blob tzdbW viennaLoc [gBlobW] [g2BlobW]
    badCalW badCompW badPropW DTErr.unsupported (by decide) (by decide)
    (by decide) (by decide) hgood

/-! ## Claims about the connection-string parser -/

theorem breakOnFirstAny_of_split (stops xs ys : List Char)
    (hxs : ∀ c ∈ xs, c ∉ stops)
    (hys : ys = [] ∨ ∃ c t, ys = c :: t ∧ c ∈ stops) :
    breakOnFirstAny stops (xs ++ ys) = (xs, ys) := by
  induction xs with
  | nil =>
    rcases hys with rfl | ⟨c, t, rfl, hc⟩
    · rfl
    · simp [breakOnFirstAny, hc]
  | cons z zs ih =>
    have hz : z ∉ stops := hxs z (by simp)
    simp only [List.cons_append, breakOnFirstAny, if_neg hz, List.append_eq,
      ih (fun c hc => hxs c (by simp [hc]))]

theorem breakOnFirstAny_spec (stops l : List Char) :
    l = (breakOnFirstAny stops l).1 ++ (breakOnFirstAny stops l).2 ∧
    (∀ c ∈ (breakOnFirstAny stops l).1, c ∉ stops) ∧
    ((breakOnFirstAny stops l).2 = [] ∨
      ∃ c t, (breakOnFirstAny stops l).2 = c :: t ∧ c ∈ stops) := by
  induction l with
  | nil => exact ⟨rfl, by simp [breakOnFirstAny], Or.inl rfl⟩
  | cons c rest ih =>
    by_cases hc : c ∈ stops
    · refine ⟨by simp [breakOnFirstAny, hc], by simp [breakOnFirstAny, hc],
        Or.inr ⟨c, rest, by simp [breakOnFirstAny, hc], hc⟩⟩
    · obtain ⟨h1, h2, h3⟩ := ih
      refine ⟨?_, ?_, ?_⟩ <;> simp only [breakOnFirstAny, if_neg hc]
      · conv_lhs => rw [h1]
        exact (List.cons_append ..).symm
      · intro z hz
        rcases List.mem_cons.mp hz with rfl | hz'
        · exact hc
        · exact h2 z hz'
      · exact h3

theorem breakOnLastChar_eq_none {ch : Char} {l : List Char} (h : ch ∉ l) :
    breakOnLastChar ch l = none := by
  induction l with
  | nil => rfl
  | cons c rest ih =>
    have hc : ¬(c = ch) := by rintro rfl; exact h (by simp)
    have hr : ch ∉ rest := fun hm => h (by simp [hm])
    simp [breakOnLastChar, ih hr, hc]

theorem breakOnLastChar_append {ch : Char} (u v : List Char) (hv : ch ∉ v) :
    breakOnLastChar ch (u ++ ch :: v) = some (u, v) := by
  induction u with
  | nil => simp [breakOnLastChar, breakOnLastChar_eq_none hv]
  | cons z zs ih => simp [breakOnLastChar, ih]

theorem breakOnLastChar_none_imp {ch : Char} {l : List Char}
    (h : breakOnLastChar ch l = none) : ch ∉ l := by
  induction l with
  | nil => simp
  | cons c rest ih =>
    rw [breakOnLastChar] at h
    rcases hr : breakOnLastChar ch rest with _ | pr <;> rw [hr] at h
    · simp only [] at h
      by_cases hc : c = ch
      · rw [if_pos hc] at h; cases h
      · intro hm
        rcases List.mem_cons.mp hm with heq | hm'
        · exact hc heq.symm
        · exact ih hr hm'
    · cases h

theorem breakOnLastChar_spec {ch : Char} {l u v : List Char}
    (h : breakOnLastChar ch l = some (u, v)) :
    l = u ++ ch :: v ∧ ch ∉ v := by
  induction l generalizing u v with
  | nil => cases h
  | cons c rest ih =>
    rw [breakOnLastChar] at h
    rcases hr : breakOnLastChar ch rest with _ | ⟨u', v'⟩ <;> rw [hr] at h
    · by_cases hc : c = ch
      · rw [if_pos hc] at h
        simp only [Option.some.injEq, Prod.mk.injEq] at h
        obtain ⟨rfl, rfl⟩ := h
        exact ⟨by rw [hc]; rfl, breakOnLastChar_none_imp hr⟩
      · rw [if_neg hc] at h; cases h
    · simp only [Option.some.injEq, Prod.mk.injEq] at h
      obtain ⟨rfl, rfl⟩ := h
      obtain ⟨hrest, hnv⟩ := ih hr
      exact ⟨by rw [List.cons_append, ← hrest], hnv⟩

theorem breakOnFirstChar_append {ch : Char} (u v : List Char) (hu : ch ∉ u) :
    breakOnFirstChar ch (u ++ ch :: v) = some (u, v) := by
  induction u with
  | nil => simp [breakOnFirstChar]
  | cons z zs ih =>
    have hz : ¬(z = ch) := by rintro rfl; exact hu (by simp)
    have hzs : ch ∉ zs := fun hm => hu (by simp [hm])
    simp [breakOnFirstChar, hz, ih hzs]

theorem queryUnescape_cons_plain {c : Char} (rest : List Char)
    (h1 : c ≠ '%') (h2 : c ≠ '+') :
    queryUnescape (c :: rest) = (queryUnescape rest).map (fun l => c :: l) := by
  rcases rest with _ | ⟨a, rest2⟩
  · simp [queryUnescape, h1, h2]
  · rcases rest2 with _ | ⟨b, rest3⟩
    · simp [queryUnescape, h1, h2]
    · simp [queryUnescape, h1, h2]

theorem queryUnescape_id (l : List Char) (h : ∀ c ∈ l, c ≠ '%' ∧ c ≠ '+') :
    queryUnescape l = some l := by
  induction l with
  | nil => rfl
  | cons c rest ih =>
    obtain ⟨h1, h2⟩ := h c (by simp)
    have hr := ih (fun c' hc' => h c' (by simp [hc']))
    rw [queryUnescape_cons_plain rest h1 h2, hr]
    rfl

theorem breakOnSub_http (rest : List Char) :
    breakOnSub schemeSep (httpChars ++ (schemeSep ++ rest))
      = some (httpChars, rest) := rfl

theorem breakOnSub_https (rest : List Char) :
    breakOnSub schemeSep (httpsChars ++ (schemeSep ++ rest))
      = some (httpsChars, rest) := rfl

/-- C4: for every connection string of the form `scheme://a@b:p@host/x`
(scheme http or https; the segment characters free of the structural
delimiters), parsing splits the authority at the last `@`, yielding
principal `a@b`, secret `p`, host `host`, path `/x`; the principal and
secret segments are percent-decoded individually, a malformed escape in
either being reported as the corresponding error; the rebuilt base URL is
then validated as `url.Parse` does, failure being the sanitizing error;
when the segments contain no escapes and the sanitized URL is valid the
principal is literally `a@b` and the secret literally `p`. -/
theorem c4_url_split_and_decode
    (schemeStr a b p host x : List Char)
    (hscheme : schemeStr = httpChars ∨ schemeStr = httpsChars)
    (_ha : a ≠ []) (hhost : host ≠ [])
    (haChars : ∀ c ∈ a, c ≠ ':' ∧ c ∉ authorityStops)
    (hbChars : ∀ c ∈ b, c ≠ ':' ∧ c ∉ authorityStops)
    (hpChars : ∀ c ∈ p, c ≠ '@' ∧ c ∉ authorityStops)
    (hhostChars : ∀ c ∈ host, c ≠ '@' ∧ c ∉ authorityStops) :
    (ParseCaldavURL
        (schemeStr ++ schemeSep ++ a ++ '@' :: b ++ ':' :: p ++ '@' :: host ++ '/' :: x)
      = match queryUnescape (a ++ '@' :: b) with
        | none => .error .badUserEscape
        | some user =>
          match queryUnescape p with
          | none => .error .badPassEscape
          | some pass =>
            if urlParseOk (schemeStr ++ schemeSep ++ host ++ '/' :: x) then
              .ok { baseURL := schemeStr ++ schemeSep ++ host ++ '/' :: x,
                    appleID := user, password := pass, hasPass := true }
            else .error .badSanitized) ∧
    ((∀ c ∈ a ++ '@' :: b, c ≠ '%' ∧ c ≠ '+') →
     (∀ c ∈ p, c ≠ '%' ∧ c ≠ '+') →
      urlParseOk (schemeStr ++ schemeSep ++ host ++ '/' :: x) = true →
      ParseCaldavURL
          (schemeStr ++ schemeSep ++ a ++ '@' :: b ++ ':' :: p ++ '@' :: host ++ '/' :: x)
        = .ok { baseURL := schemeStr ++ schemeSep ++ host ++ '/' :: x,
                appleID := a ++ '@' :: b, password := p, hasPass := true }) := by
  have hsne : schemeStr ≠ [] := by rcases hscheme with rfl | rfl <;> simp [httpChars, httpsChars]
  have hbs : breakOnSub schemeSep
      (schemeStr ++ (schemeSep ++ (a ++ '@' :: (b ++ ':' :: (p ++ '@' :: (host ++ '/' :: x))))))
      = some (schemeStr, a ++ '@' :: (b ++ ':' :: (p ++ '@' :: (host ++ '/' :: x)))) := by
    rcases hscheme with rfl | rfl
    · exact breakOnSub_http _
    · exact breakOnSub_https _
  have hlow : toLowerList schemeStr = schemeStr := by
    rcases hscheme with rfl | rfl <;> rfl
  have hok : ¬(schemeStr ≠ httpChars ∧ schemeStr ≠ httpsChars) := by
    rcases hscheme with rfl | rfl <;> simp
  have hrawne : (schemeStr ++ (schemeSep ++ (a ++ '@' :: (b ++ ':' :: (p ++ '@' :: (host ++ '/' :: x)))))) ≠ [] := by
    rcases hscheme with rfl | rfl <;> simp [httpChars, httpsChars]
  have hstopsU : ∀ c ∈ (a ++ '@' :: (b ++ ':' :: (p ++ '@' :: host))), c ∉ authorityStops := by
    intro c hc
    simp only [List.mem_append, List.mem_cons] at hc
    rcases hc with hc | hc | hc | hc | hc | hc
    · exact (haChars c hc).2
    · subst hc; decide
    · exact (hbChars c hc).2
    · subst hc; decide
    · exact (hpChars c hc).2
    · rcases hc with hc | hc
      · subst hc; decide
      · exact (hhostChars c hc).2
  have hsplit : breakOnFirstAny authorityStops
      (a ++ '@' :: (b ++ ':' :: (p ++ '@' :: (host ++ '/' :: x))))
      = (a ++ '@' :: (b ++ ':' :: (p ++ '@' :: host)), '/' :: x) := by
    have heq : a ++ '@' :: (b ++ ':' :: (p ++ '@' :: (host ++ '/' :: x)))
        = (a ++ '@' :: (b ++ ':' :: (p ++ '@' :: host))) ++ '/' :: x := by simp
    rw [heq]
    exact breakOnFirstAny_of_split _ _ _ hstopsU (Or.inr ⟨'/', x, rfl, by decide⟩)
  have hlast : breakOnLastChar '@' (a ++ '@' :: (b ++ ':' :: (p ++ '@' :: host)))
      = some (a ++ '@' :: (b ++ ':' :: p), host) := by
    have heq : a ++ '@' :: (b ++ ':' :: (p ++ '@' :: host))
        = (a ++ '@' :: (b ++ ':' :: p)) ++ '@' :: host := by simp
    rw [heq]
    exact breakOnLastChar_append _ _ (fun hm => (hhostChars '@' hm).1 rfl)
  have hfirst : breakOnFirstChar ':' (a ++ '@' :: (b ++ ':' :: p))
      = some (a ++ '@' :: b, p) := by
    have heq : a ++ '@' :: (b ++ ':' :: p) = (a ++ '@' :: b) ++ ':' :: p := by simp
    rw [heq]
    refine breakOnFirstChar_append _ _ ?_
    intro hm
    simp only [List.mem_append, List.mem_cons] at hm
    rcases hm with hm | hm | hm
    · exact (haChars ':' hm).1 rfl
    · exact absurd hm (by decide)
    · exact (hbChars ':' hm).1 rfl
  have hAne : (a ++ '@' :: (b ++ ':' :: (p ++ '@' :: host))) ≠ [] := by simp
  have hUne : (a ++ '@' :: (b ++ ':' :: p)) ≠ [] := by simp
  have huserne : (a ++ '@' :: b) ≠ [] := by simp
  have main : ParseCaldavURL
      (schemeStr ++ schemeSep ++ a ++ '@' :: b ++ ':' :: p ++ '@' :: host ++ '/' :: x)
      = match queryUnescape (a ++ '@' :: b) with
        | none => .error .badUserEscape
        | some user =>
          match queryUnescape p with
          | none => .error .badPassEscape
          | some pass =>
            if urlParseOk (schemeStr ++ schemeSep ++ host ++ '/' :: x) then
              .ok { baseURL := schemeStr ++ schemeSep ++ host ++ '/' :: x,
                    appleID := user, password := pass, hasPass := true }
            else .error .badSanitized := by
    simp only [ParseCaldavURL, List.append_assoc, List.cons_append]
    rw [if_neg hrawne, hbs]
    dsimp only
    rw [if_neg hsne, hlow]
    rw [if_neg hok]
    rw [hsplit]
    dsimp only
    rw [if_neg hAne, hlast]
    dsimp only
    rw [if_neg hhost, if_neg hUne, hfirst]
    dsimp only
    rw [if_neg huserne]
    simp
  refine ⟨main, fun hu hp2 hvalid => ?_⟩
  rw [main, queryUnescape_id _ hu, queryUnescape_id _ hp2]
  simp only [hvalid, if_true]

def c4aW : List Char := "alice".data
def c4bW : List Char := "gmail.com".data
def c4pW : List Char := "pa55".data
def c4hostW : List Char := "caldav.icloud.com".data
def c4xW : List Char := "calendars".data
def c4aBadW : List Char := "ali%zz".data

def c4xBadW : List Char := "cal%zz".data

theorem c4_url_split_and_decode_witness :
    (ParseCaldavURL (httpsChars ++ schemeSep ++ c4aW ++ '@' :: c4bW ++ ':' :: c4pW
        ++ '@' :: c4hostW ++ '/' :: c4xW)
      = .ok { baseURL := httpsChars ++ schemeSep ++ c4hostW ++ '/' :: c4xW,
              appleID := c4aW ++ '@' :: c4bW,
              password := c4pW, hasPass := true }) ∧
    ParseCaldavURL (httpsChars ++ schemeSep ++ c4aBadW ++ '@' :: c4bW ++ ':' :: c4pW
        ++ '@' :: c4hostW ++ '/' :: c4xW)
      = .error .badUserEscape ∧
    ParseCaldavURL (httpsChars ++ schemeSep ++ c4aW ++ '@' :: c4bW ++ ':' :: c4pW
        ++ '@' :: c4hostW ++ '/' :: c4xBadW)
      = .error .badSanitized := by
  refine ⟨?_, ?_, ?_⟩
  · exact (c4_url_split_and_decode httpsChars c4aW c4bW c4pW c4hostW c4xW
      (Or.inr rfl) (by decide) (by decide) (by decide) (by decide) (by decide)
      (by decide)).2 (by decide) (by decide) (by decide)
  · rw [(c4_url_split_and_decode httpsChars c4aBadW c4bW c4pW c4hostW c4xW
      (Or.inr rfl) (by decide) (by decide) (by decide) (by decide) (by decide)
      (by decide)).1]
    decide
  · rw [(c4_url_split_and_decode httpsChars c4aW c4bW c4pW c4hostW c4xBadW
      (Or.inr rfl) (by decide) (by decide) (by decide) (by decide) (by decide)
      (by decide)).1]
    decide

/-- C8: every successfully parsed connection string yields a base URL whose
authority component contains no `@`, i.e. the principal and secret are
stripped and the sanitized base URL carries no userinfo. -/
theorem c8_base_url_never_embeds_credentials (raw : List Char) (r : CaldavURL)
    (h : ParseCaldavURL raw = .ok r) :
    hasUserinfo r.baseURL = false := by
  rw [ParseCaldavURL] at h
  by_cases h0 : raw = []
  · rw [if_pos h0] at h; simp at h
  rw [if_neg h0] at h
  rcases hbs : breakOnSub schemeSep raw with _ | ⟨schemeRaw, rest⟩ <;> rw [hbs] at h
  · simp at h
  dsimp only at h
  by_cases h1 : schemeRaw = []
  · rw [if_pos h1] at h; simp at h
  rw [if_neg h1] at h
  by_cases h2 : toLowerList schemeRaw ≠ httpChars ∧ toLowerList schemeRaw ≠ httpsChars
  · rw [if_pos h2] at h; simp at h
  rw [if_neg h2] at h
  have hsch : toLowerList schemeRaw = httpChars ∨ toLowerList schemeRaw = httpsChars := by
    rcases not_and_or.mp h2 with hh | hh
    · exact Or.inl (not_not.mp hh)
    · exact Or.inr (not_not.mp hh)
  obtain ⟨hrest, hAnostops, hRshape⟩ := breakOnFirstAny_spec authorityStops rest
  by_cases h3 : (breakOnFirstAny authorityStops rest).1 = []
  · rw [if_pos h3] at h; simp at h
  rw [if_neg h3] at h
  rcases hlc : breakOnLastChar '@' (breakOnFirstAny authorityStops rest).1
      with _ | ⟨ui, hp⟩ <;> rw [hlc] at h
  · simp at h
  dsimp only at h
  obtain ⟨hAeq, hnoat⟩ := breakOnLastChar_spec hlc
  have hhpstops : ∀ c ∈ hp, c ∉ authorityStops := fun c hc =>
    hAnostops c (by rw [hAeq]; simp [hc])
  have hbase : hasUserinfo (toLowerList schemeRaw ++ schemeSep ++ hp
      ++ (breakOnFirstAny authorityStops rest).2) = false := by
    simp only [List.append_assoc]
    rcases hsch with hs | hs <;> simp only [hs]
    · simp only [hasUserinfo, urlAuthority, breakOnSub_http,
        breakOnFirstAny_of_split authorityStops hp
          (breakOnFirstAny authorityStops rest).2 hhpstops hRshape]
      simpa using hnoat
    · simp only [hasUserinfo, urlAuthority, breakOnSub_https,
        breakOnFirstAny_of_split authorityStops hp
          (breakOnFirstAny authorityStops rest).2 hhpstops hRshape]
      simpa using hnoat
  by_cases h4 : hp = []
  · rw [if_pos h4] at h; simp at h
  rw [if_neg h4] at h
  by_cases h5 : ui = []
  · rw [if_pos h5] at h; simp at h
  rw [if_neg h5] at h
  rcases hfc : breakOnFirstChar ':' ui with _ | ⟨u0, pw0⟩ <;> rw [hfc] at h <;>
    dsimp only at h
  · by_cases h6 : ui = []
    · exact absurd h6 h5
    rw [if_neg h6] at h
    rcases hqu : queryUnescape ui with _ | user <;> rw [hqu] at h
    · simp at h
    simp only [Bool.false_eq_true, if_false] at h
    by_cases hvalid : urlParseOk (toLowerList schemeRaw ++ schemeSep ++ hp
        ++ (breakOnFirstAny authorityStops rest).2) = true
    · rw [if_pos hvalid] at h
      injection h with h
      rw [← h]
      exact hbase
    · rw [if_neg hvalid] at h
      simp at h
  · by_cases h6 : u0 = []
    · rw [if_pos h6] at h; simp at h
    rw [if_neg h6] at h
    rcases hqu : queryUnescape u0 with _ | user <;> rw [hqu] at h
    · simp at h
    dsimp only at h
    rcases hqp : queryUnescape pw0 with _ | pass <;> rw [hqp] at h
    · simp at h
    simp only [eq_self_iff_true, if_true] at h
    by_cases hvalid : urlParseOk (toLowerList schemeRaw ++ schemeSep ++ hp
        ++ (breakOnFirstAny authorityStops rest).2) = true
    · rw [if_pos hvalid] at h
      simp only [Except.ok.injEq] at h
      rw [← h]
      exact hbase
    · rw [if_neg hvalid] at h
      simp at h

def c8RawW : List Char := "https://u@example.org:s3cr3t@caldav.icloud.com/home".data

theorem c8_base_url_never_embeds_credentials_witness :
    ∃ r, ParseCaldavURL c8RawW = .ok r ∧ hasUserinfo r.baseURL = false := by
  refine ⟨_, rfl, c8_base_url_never_embeds_credentials c8RawW _ rfl⟩

end Smsremind
